import Mathlib

/-!
# Verification of the `gestor-finanzas` data layer (`src/app.py`)

This file gives a shallow embedding of the persistent data layer of the
personal-finance tracker in `src/app.py`: the SQLite schema and migration
logic (`init_db`), transaction CRUD (`add_transaction`, `delete_transaction`,
`get_data`), reference-data management (`get_categories`, `get_locations`,
`add_new_category`, `add_new_location`) and the dashboard aggregations
(KPI sums, category pie grouping, location top-5 bar grouping).

Modelling conventions:
* The SQLite file is a `DB` value: each table is an `Option` (present/absent),
  a table is a list of rows plus the `AUTOINCREMENT` counter; for the
  transaction table also a flag recording whether the `ubicacion` column
  exists in its schema (old databases lack it).
* `REAL` amounts are modelled as exact rationals `ℚ`.
* `TEXT` dates are `String`s; SQLite's `ORDER BY` on `TEXT` (binary collation)
  is the lexicographic order on code points, embedded here as the computable
  `strLtb`/`strLeb`; `pd.to_datetime` on the canonical `YYYY-MM-DD` strings the
  app writes is embedded as `parseDate`.
* SQL errors (missing table / missing column) surface as `Option`/`Except`
  results; `sqlite3.IntegrityError` on the `UNIQUE` constraints is the
  boolean `false` return of the add functions.
* Python's `str.capitalize` is embedded (on the ASCII letters, which core
  `Char.toUpper`/`Char.toLower` translate exactly like Python) as
  `pyCapitalize`.
* `ORDER BY` and `groupby`'s key ordering are embedded as the stable
  `List.insertionSort`; `sort_values` with its default unstable kind is
  embedded relationally (`IsSortValuesMontoDesc`): only "a permutation of the
  input, non-increasing on the key" is guaranteed, the tie order is
  implementation-defined.
-/

/-! ## Lexicographic order on strings (SQLite `TEXT` binary collation) -/

/-- Strict lexicographic comparison of code-point lists, as SQLite's binary
collation compares `TEXT` values (and as Lean's `String.lt` behaves). -/
def strLtChars : List Char → List Char → Bool
  | [], [] => false
  | [], _ :: _ => true
  | _ :: _, [] => false
  | a :: as, b :: bs =>
    if a.toNat < b.toNat then true
    else if b.toNat < a.toNat then false
    else strLtChars as bs

/-- Strict string comparison used by `ORDER BY` on `TEXT` columns. -/
def strLtb (s t : String) : Bool := strLtChars s.data t.data

/-- Non-strict string comparison: `s ≤ t` iff `¬ t < s`. -/
def strLeb (s t : String) : Bool := !strLtb t s

theorem char_toNat_inj {a b : Char} (h : a.toNat = b.toNat) : a = b :=
  Char.ext (UInt32.toNat.inj h)

theorem strLtChars_irrefl : ∀ l : List Char, strLtChars l l = false
  | [] => rfl
  | a :: as => by
    simp only [strLtChars, Nat.lt_irrefl, if_false]
    exact strLtChars_irrefl as

theorem strLtChars_trans :
    ∀ {a b c : List Char}, strLtChars a b = true → strLtChars b c = true →
      strLtChars a c = true
  | [], _ :: _, _ :: _, _, _ => rfl
  | x :: xs, y :: ys, z :: zs, h₁, h₂ => by
    simp only [strLtChars] at h₁ h₂ ⊢
    by_cases hxy : x.toNat < y.toNat <;> by_cases hyz : y.toNat < z.toNat
    · simp [show x.toNat < z.toNat from Nat.lt_trans hxy hyz]
    · simp only [hyz, if_false] at h₂
      by_cases hzy : z.toNat < y.toNat
      · simp [hzy] at h₂
      · have : y.toNat = z.toNat := Nat.le_antisymm (Nat.le_of_not_lt hzy) (Nat.le_of_not_lt hyz)
        simp [show x.toNat < z.toNat from this ▸ hxy]
    · simp only [hxy, if_false] at h₁
      by_cases hyx : y.toNat < x.toNat
      · simp [hyx] at h₁
      · have : x.toNat = y.toNat := Nat.le_antisymm (Nat.le_of_not_lt hyx) (Nat.le_of_not_lt hxy)
        simp [show x.toNat < z.toNat from this ▸ hyz]
    · simp only [hxy, if_false] at h₁
      simp only [hyz, if_false] at h₂
      by_cases hyx : y.toNat < x.toNat
      · simp [hyx] at h₁
      · by_cases hzy : z.toNat < y.toNat
        · simp [hzy] at h₂
        · have exy : x.toNat = y.toNat :=
            Nat.le_antisymm (Nat.le_of_not_lt hyx) (Nat.le_of_not_lt hxy)
          have eyz : y.toNat = z.toNat :=
            Nat.le_antisymm (Nat.le_of_not_lt hzy) (Nat.le_of_not_lt hyz)
          simp only [hyx, if_false] at h₁
          simp only [hzy, if_false] at h₂
          have : ¬ x.toNat < z.toNat := by omega
          simp only [show ¬ x.toNat < z.toNat by omega, if_false,
            show ¬ z.toNat < x.toNat by omega, if_false]
          exact strLtChars_trans h₁ h₂

theorem strLtChars_eq_of_not_lt :
    ∀ {a b : List Char}, strLtChars a b = false → strLtChars b a = false → a = b
  | [], [], _, _ => rfl
  | [], _ :: _, h₁, _ => by simp [strLtChars] at h₁
  | _ :: _, [], _, h₂ => by simp [strLtChars] at h₂
  | x :: xs, y :: ys, h₁, h₂ => by
    simp only [strLtChars] at h₁ h₂
    by_cases hxy : x.toNat < y.toNat
    · simp [hxy] at h₁
    · by_cases hyx : y.toNat < x.toNat
      · simp [hyx, hxy] at h₂
      · have hx : x = y := char_toNat_inj (Nat.le_antisymm
          (Nat.le_of_not_lt hyx) (Nat.le_of_not_lt hxy))
        simp only [hxy, if_false, hyx, if_false] at h₁ h₂
        rw [hx, strLtChars_eq_of_not_lt h₁ h₂]

theorem strLeb_total (s t : String) : strLeb s t = true ∨ strLeb t s = true := by
  by_cases h₁ : strLtb t s = true
  · right
    by_cases h₂ : strLtb s t = true
    · exfalso
      have := strLtChars_trans h₁ h₂
      rw [strLtChars_irrefl] at this
      exact Bool.false_ne_true this
    · simp [strLeb, h₂]
  · left
    have hf : strLtb t s = false := by
      cases hh : strLtb t s
      · rfl
      · exact absurd hh h₁
    simp [strLeb, hf]

theorem strLeb_trans {s t u : String} (h₁ : strLeb s t = true) (h₂ : strLeb t u = true) :
    strLeb s u = true := by
  simp only [strLeb, Bool.not_eq_true', strLtb] at h₁ h₂ ⊢
  by_cases h : strLtChars u.data s.data = true
  · by_cases htu : strLtChars t.data u.data = true
    · have : strLtChars t.data s.data = true := strLtChars_trans htu h
      simp [this] at h₁
    · have he : t.data = u.data :=
        strLtChars_eq_of_not_lt (Bool.not_eq_true _ ▸ htu) h₂
      rw [← he] at h
      simp [h] at h₁
  · simpa using h

/-! ## Python `str.capitalize` (ASCII model) -/

/-- Python's `str.capitalize`, as applied in `add_new_category` /
`add_new_location` (`nombre.capitalize()`): the first character is
uppercased and every following character is lowercased. On the ASCII
letters core `Char.toUpper`/`Char.toLower` agree exactly with Python. -/
def pyCapitalize (s : String) : String :=
  match s.data with
  | [] => ""
  | c :: cs => ⟨c.toUpper :: cs.map Char.toLower⟩

theorem char_toNat_ofNat_of_valid {n : Nat} (h : n < 55296) :
    (Char.ofNat n).toNat = n := by
  rw [Char.ofNat, dif_pos (Or.inl h)]
  rfl

theorem char_toUpper_toLower_eq {c d : Char} (h : c.toLower = d.toLower) :
    c.toUpper = d.toUpper := by
  unfold Char.toLower at h
  unfold Char.toUpper
  by_cases hc : c.toNat ≥ 65 ∧ c.toNat ≤ 90 <;>
    by_cases hd : d.toNat ≥ 65 ∧ d.toNat ≤ 90
  · rw [if_pos hc, if_pos hd] at h
    have : c.toNat + 32 = d.toNat + 32 := by
      have h1 := char_toNat_ofNat_of_valid (n := c.toNat + 32) (by omega)
      have h2 := char_toNat_ofNat_of_valid (n := d.toNat + 32) (by omega)
      rw [← h1, ← h2, h]
    have hcd : c = d := char_toNat_inj (by omega)
    rw [hcd]
  · rw [if_pos hc, if_neg hd] at h
    have hdn : d.toNat = c.toNat + 32 := by
      rw [← h]
      exact char_toNat_ofNat_of_valid (by omega)
    rw [if_neg (by omega), if_pos (by omega), hdn]
    rw [show c.toNat + 32 - 32 = c.toNat by omega, Char.ofNat_toNat]
  · rw [if_neg hc, if_pos hd] at h
    have hcn : c.toNat = d.toNat + 32 := by
      rw [h]
      exact char_toNat_ofNat_of_valid (by omega)
    rw [if_pos (by omega), if_neg (by omega), hcn]
    have : d.toNat + 32 - 32 = d.toNat := by omega
    rw [this, Char.ofNat_toNat]
  · rw [if_neg hc, if_neg hd] at h
    rw [h]

theorem char_toUpper_idem (c : Char) : c.toUpper.toUpper = c.toUpper := by
  unfold Char.toUpper
  by_cases hc : c.toNat ≥ 97 ∧ c.toNat ≤ 122
  · rw [if_pos hc]
    have hv : (Char.ofNat (c.toNat - 32)).toNat = c.toNat - 32 :=
      char_toNat_ofNat_of_valid (by omega)
    rw [if_neg (by omega)]
  · rw [if_neg hc, if_neg hc]

/-- Two strings differ only in (ASCII) letter case: they have the same length
and corresponding characters agree up to case. -/
def caseVariant (s t : String) : Prop :=
  List.Forall₂ (fun c d : Char => c.toLower = d.toLower) s.data t.data

theorem map_eq_of_forall₂ {α β : Type} {f : α → β} :
    ∀ {l l' : List α}, List.Forall₂ (fun a b => f a = f b) l l' → l.map f = l'.map f
  | _, _, .nil => rfl
  | _, _, .cons h t => by simp only [List.map_cons, h, map_eq_of_forall₂ t]

theorem pyCapitalize_caseVariant {s t : String} (h : caseVariant s t) :
    pyCapitalize s = pyCapitalize t := by
  obtain ⟨sd⟩ := s
  obtain ⟨td⟩ := t
  unfold caseVariant at h
  simp only at h
  cases h with
  | nil => rfl
  | cons hcd htl =>
    unfold pyCapitalize
    simp only
    congr 2
    · exact char_toUpper_toLower_eq hcd
    · exact map_eq_of_forall₂ htl

/-! ## Calendar dates and their canonical `YYYY-MM-DD` text -/

structure Date where
  year : Nat
  month : Nat
  day : Nat
deriving DecidableEq, Repr

/-- The range of dates the app can write (`st.date_input` only produces real
calendar dates; four-digit years, months 1–12, days 1–31). -/
def ValidDate (d : Date) : Prop :=
  d.year ≤ 9999 ∧ 1 ≤ d.month ∧ d.month ≤ 12 ∧ 1 ≤ d.day ∧ d.day ≤ 31

def digitChar (n : Nat) : Char := Char.ofNat (48 + n)

/-- Zero-padded `k`-digit decimal numeral, most significant digit first
(`str(datetime.date)` zero-pads year, month and day). -/
def padDigits : Nat → Nat → List Char
  | 0, _ => []
  | k+1, n => digitChar (n / 10 ^ k) :: padDigits k (n % 10 ^ k)

def isoChars (d : Date) : List Char :=
  padDigits 4 d.year ++ '-' :: (padDigits 2 d.month ++ '-' :: padDigits 2 d.day)

/-- The canonical ISO-8601 text that Python's `sqlite3` stores for a
`datetime.date` bound parameter. -/
def isoOfDate (d : Date) : String := ⟨isoChars d⟩

def digitVal? (c : Char) : Option Nat :=
  if 48 ≤ c.toNat ∧ c.toNat ≤ 57 then some (c.toNat - 48) else none

def decDigitsAux : List Char → Nat → Option Nat
  | [], acc => some acc
  | c :: cs, acc =>
    match digitVal? c with
    | some v => decDigitsAux cs (acc * 10 + v)
    | none => none

def decDigits? : List Char → Option Nat
  | [] => none
  | cs => decDigitsAux cs 0

def splitDash : List Char → List (List Char)
  | [] => [[]]
  | c :: cs =>
    if c = '-' then [] :: splitDash cs
    else
      match splitDash cs with
      | g :: gs => (c :: g) :: gs
      | [] => [[c]]

/-- `pd.to_datetime` as `get_data` uses it, restricted to the strict
`YYYY-MM-DD` form the app writes: four-digit year, two-digit month in 1–12,
two-digit day in 1–31. Any other text fails to parse (raises in pandas),
which `get_data`'s bare `except` turns into an empty result. -/
def parseDate (s : String) : Option Date :=
  match splitDash s.data with
  | [y, m, d] =>
    if y.length = 4 ∧ m.length = 2 ∧ d.length = 2 then
      match decDigits? y, decDigits? m, decDigits? d with
      | some yv, some mv, some dv =>
        if 1 ≤ mv ∧ mv ≤ 12 ∧ 1 ≤ dv ∧ dv ≤ 31 then some ⟨yv, mv, dv⟩ else none
      | _, _, _ => none
    else none
  | _ => none

theorem digitChar_toNat {n : Nat} (h : n < 10) : (digitChar n).toNat = 48 + n :=
  char_toNat_ofNat_of_valid (by omega)

theorem div_pow_lt_10 {k n : Nat} (hn : n < 10 ^ (k+1)) : n / 10 ^ k < 10 :=
  Nat.div_lt_of_lt_mul (by rw [← Nat.pow_succ]; exact hn)

theorem digit_range {q : Nat} (h : q < 10) : 48 ≤ 48 + q ∧ 48 + q ≤ 57 := by omega

theorem digit_cancel (q : Nat) : 48 + q - 48 = q := by omega

theorem pow10_pos (k : Nat) : 0 < 10 ^ k := pow_pos (by omega) k

theorem mem_padDigits_isDigit :
    ∀ {k n : Nat}, n < 10 ^ k → ∀ c ∈ padDigits k n, 48 ≤ c.toNat ∧ c.toNat ≤ 57
  | 0, _, _, _, hc => by simp [padDigits] at hc
  | k+1, n, hn, c, hc => by
    simp only [padDigits, List.mem_cons] at hc
    rcases hc with hc | hc
    · have hq : n / 10 ^ k < 10 := div_pow_lt_10 hn
      rw [hc, digitChar_toNat hq]
      exact digit_range hq
    · exact mem_padDigits_isDigit (Nat.mod_lt _ (pow10_pos k)) c hc

theorem length_padDigits : ∀ (k n : Nat), (padDigits k n).length = k
  | 0, _ => rfl
  | k+1, n => by simp [padDigits, length_padDigits k]

theorem splitDash_cons_nodash {c : Char} (hc : c ≠ '-') (l : List Char) :
    splitDash (c :: l) =
      (match splitDash l with
       | g :: gs => (c :: g) :: gs
       | [] => [[c]]) := by
  show (if c = '-' then [] :: splitDash l else _) = _
  rw [if_neg hc]

theorem splitDash_dash_cons (l : List Char) :
    splitDash ('-' :: l) = [] :: splitDash l := by
  show (if '-' = '-' then [] :: splitDash l else _) = _
  rw [if_pos rfl]

theorem splitDash_append_nodash :
    ∀ {l : List Char}, (∀ c ∈ l, c ≠ '-') → ∀ r g gs, splitDash r = g :: gs →
      splitDash (l ++ r) = (l ++ g) :: gs
  | [], _, r, g, gs, hr => by simpa using hr
  | c :: l, h, r, g, gs, hr => by
    have hc : c ≠ '-' := h c (List.mem_cons_self c l)
    have ih := splitDash_append_nodash (fun x hx => h x (List.mem_cons_of_mem c hx)) r g gs hr
    rw [List.cons_append, splitDash_cons_nodash hc, ih]
    rfl

theorem splitDash_nodash {l : List Char} (h : ∀ c ∈ l, c ≠ '-') :
    splitDash l = [l] := by
  have := splitDash_append_nodash h [] [] [] rfl
  simpa using this

theorem decDigitsAux_padDigits :
    ∀ {k n : Nat}, n < 10 ^ k → ∀ acc, decDigitsAux (padDigits k n) acc =
      some (acc * 10 ^ k + n)
  | 0, n, hn, acc => by
    have h0 : n = 0 := by simpa using hn
    simp [padDigits, decDigitsAux, h0]
  | k+1, n, hn, acc => by
    have hq : n / 10 ^ k < 10 := div_pow_lt_10 hn
    have hm : n % 10 ^ k < 10 ^ k := Nat.mod_lt _ (pow10_pos k)
    simp only [padDigits, decDigitsAux, digitVal?, digitChar_toNat hq]
    rw [if_pos (digit_range hq)]
    simp only [digit_cancel]
    rw [decDigitsAux_padDigits hm]
    congr 1
    have hdm : 10 ^ k * (n / 10 ^ k) + n % 10 ^ k = n := Nat.div_add_mod n (10 ^ k)
    have hstep : (acc * 10 + n / 10 ^ k) * 10 ^ k + n % 10 ^ k =
        acc * (10 ^ k * 10) + (10 ^ k * (n / 10 ^ k) + n % 10 ^ k) := by ring
    rw [hstep, hdm, ← Nat.pow_succ]

theorem decDigits_padDigits {k n : Nat} (hk : 0 < k) (hn : n < 10 ^ k) :
    decDigits? (padDigits k n) = some n := by
  have hrw : decDigits? (padDigits k n) = decDigitsAux (padDigits k n) 0 := by
    unfold decDigits?
    cases hp : padDigits k n with
    | nil =>
      have hl := length_padDigits k n
      rw [hp] at hl
      simp at hl
      omega
    | cons a l => rfl
  rw [hrw, decDigitsAux_padDigits hn]
  simp

theorem nodash_padDigits {k n : Nat} (hn : n < 10 ^ k) :
    ∀ c ∈ padDigits k n, c ≠ '-' := by
  intro c hc he
  have hd := mem_padDigits_isDigit hn c hc
  rw [he] at hd
  exact absurd hd (by decide)

/-- Round trip: the parser recovers exactly the date the app serialized. -/
theorem parseDate_isoOfDate {d : Date} (h : ValidDate d) :
    parseDate (isoOfDate d) = some d := by
  obtain ⟨hy, hm1, hm2, hd1, hd2⟩ := h
  have hylt : d.year < 10 ^ 4 := by omega
  have hmlt : d.month < 10 ^ 2 := by omega
  have hdlt : d.day < 10 ^ 2 := by omega
  have hsplitd : splitDash (padDigits 2 d.day) = [padDigits 2 d.day] :=
    splitDash_nodash (nodash_padDigits hdlt)
  have hsplitmd : splitDash (padDigits 2 d.month ++ '-' :: padDigits 2 d.day) =
      [padDigits 2 d.month, padDigits 2 d.day] := by
    have h1 : splitDash ('-' :: padDigits 2 d.day) = [] :: [padDigits 2 d.day] := by
      rw [splitDash_dash_cons, hsplitd]
    exact splitDash_append_nodash (nodash_padDigits hmlt) _ _ _ h1
  have hsplit : splitDash (isoChars d) =
      [padDigits 4 d.year, padDigits 2 d.month, padDigits 2 d.day] := by
    unfold isoChars
    have h2 : splitDash ('-' :: (padDigits 2 d.month ++ '-' :: padDigits 2 d.day)) =
        [] :: [padDigits 2 d.month, padDigits 2 d.day] := by
      rw [splitDash_dash_cons, hsplitmd]
    exact splitDash_append_nodash (nodash_padDigits hylt) _ _ _ h2
  have hdata : (isoOfDate d).data = isoChars d := rfl
  unfold parseDate
  rw [hdata, hsplit]
  simp [length_padDigits, decDigits_padDigits (show 0 < 4 by omega) hylt,
    decDigits_padDigits (show 0 < 2 by omega) hmlt,
    decDigits_padDigits (show 0 < 2 by omega) hdlt, hm1, hm2, hd1, hd2]

/-! ## Chronological order agrees with `TEXT` order on canonical dates -/

def dateLtProp (a b : Date) : Prop :=
  a.year < b.year ∨ (a.year = b.year ∧
    (a.month < b.month ∨ (a.month = b.month ∧ a.day < b.day)))

def dateLeProp (a b : Date) : Prop := dateLtProp a b ∨ a = b

theorem dateLt_of_not_le {a b : Date} (h : ¬ dateLeProp a b) : dateLtProp b a := by
  unfold dateLeProp dateLtProp at *
  obtain ⟨ya, ma, da⟩ := a
  obtain ⟨yb, mb, db⟩ := b
  simp only [Date.mk.injEq] at h
  simp only
  omega

theorem strLtChars_append_left :
    ∀ (l r₁ r₂ : List Char), strLtChars (l ++ r₁) (l ++ r₂) = strLtChars r₁ r₂
  | [], _, _ => rfl
  | c :: l, r₁, r₂ => by
    simp only [List.cons_append, strLtChars, Nat.lt_irrefl, if_false]
    exact strLtChars_append_left l r₁ r₂

theorem padDigits_lt :
    ∀ {k n₁ n₂ : Nat}, n₁ < n₂ → n₂ < 10 ^ k → ∀ r₁ r₂,
      strLtChars (padDigits k n₁ ++ r₁) (padDigits k n₂ ++ r₂) = true
  | 0, _, _, h, h₂, _, _ => by
    simp at h₂
    omega
  | k+1, n₁, n₂, h, h₂, r₁, r₂ => by
    have hq2 : n₂ / 10 ^ k < 10 := div_pow_lt_10 h₂
    have hq1 : n₁ / 10 ^ k < 10 := div_pow_lt_10 (Nat.lt_trans h h₂)
    have hqle : n₁ / 10 ^ k ≤ n₂ / 10 ^ k := Nat.div_le_div_right (Nat.le_of_lt h)
    simp only [padDigits, List.cons_append, strLtChars,
      digitChar_toNat hq1, digitChar_toNat hq2]
    rcases Nat.lt_or_ge (n₁ / 10 ^ k) (n₂ / 10 ^ k) with hlt | hge
    · rw [if_pos (by omega)]
    · have heq : n₁ / 10 ^ k = n₂ / 10 ^ k := Nat.le_antisymm hqle hge
      rw [if_neg (by omega), if_neg (by omega)]
      have hdm1 : 10 ^ k * (n₁ / 10 ^ k) + n₁ % 10 ^ k = n₁ := Nat.div_add_mod n₁ (10 ^ k)
      have hdm2 : 10 ^ k * (n₂ / 10 ^ k) + n₂ % 10 ^ k = n₂ := Nat.div_add_mod n₂ (10 ^ k)
      have hmlt : n₁ % 10 ^ k < n₂ % 10 ^ k := by
        rw [heq] at hdm1
        omega
      exact padDigits_lt hmlt (Nat.mod_lt _ (pow10_pos k)) r₁ r₂

theorem strLtChars_cons_same (c : Char) (r₁ r₂ : List Char) :
    strLtChars (c :: r₁) (c :: r₂) = strLtChars r₁ r₂ := by
  simp only [strLtChars, Nat.lt_irrefl, if_false]

/-- Chronological order is serialized faithfully: an earlier valid date has
strictly smaller canonical `YYYY-MM-DD` text in the `TEXT` collation. -/
theorem isoOfDate_strLt {a b : Date} (hva : ValidDate a) (hvb : ValidDate b)
    (h : dateLtProp a b) : strLtb (isoOfDate a) (isoOfDate b) = true := by
  have hya : a.year < 10 ^ 4 := by obtain ⟨h1, _⟩ := hva; omega
  have hyb : b.year < 10 ^ 4 := by obtain ⟨h1, _⟩ := hvb; omega
  have hma : a.month < 10 ^ 2 := by obtain ⟨_, _, h1, _⟩ := hva; omega
  have hmb : b.month < 10 ^ 2 := by obtain ⟨_, _, h1, _⟩ := hvb; omega
  have hda : a.day < 10 ^ 2 := by obtain ⟨_, _, _, _, h1⟩ := hva; omega
  have hdb : b.day < 10 ^ 2 := by obtain ⟨_, _, _, _, h1⟩ := hvb; omega
  show strLtChars (isoChars a) (isoChars b) = true
  unfold isoChars
  rcases h with hy | ⟨hy, hmo⟩
  · exact padDigits_lt hy hyb _ _
  · rw [hy, strLtChars_append_left, strLtChars_cons_same]
    rcases hmo with hm | ⟨hm, hd⟩
    · exact padDigits_lt hm hmb _ _
    · rw [hm, strLtChars_append_left, strLtChars_cons_same]
      have := padDigits_lt hd hdb ([] : List Char) ([] : List Char)
      simpa using this

/-! ## Data model: the SQLite store of `finanzas.db` -/

/-- One row of the `transacciones` table. `ubicacion` is `Option` because the
column is nullable and absent entirely in pre-migration schemas. -/
structure TransRow where
  id : Nat
  fecha : String
  tipo : String
  categoria : String
  monto : ℚ
  nota : String
  ubicacion : Option String
deriving DecidableEq, Repr

/-- The `transacciones` table: its rows, the `AUTOINCREMENT` counter, and
whether the schema includes the `ubicacion` column (old databases lack it). -/
structure TransTable where
  hasUbicacion : Bool
  nextId : Nat
  rows : List TransRow
deriving DecidableEq, Repr

structure CatRow where
  id : Nat
  tipo : String
  nombre : String
deriving DecidableEq, Repr

/-- The `categorias` table with its `UNIQUE(tipo, nombre)` constraint enforced
by the operations below. -/
structure CatTable where
  nextId : Nat
  rows : List CatRow
deriving DecidableEq, Repr

structure LugRow where
  id : Nat
  nombre : String
deriving DecidableEq, Repr

/-- The `lugares` table with its `UNIQUE(nombre)` constraint. -/
structure LugTable where
  nextId : Nat
  rows : List LugRow
deriving DecidableEq, Repr

/-- The whole `finanzas.db` file; `none` means the table does not exist. -/
structure DB where
  transacciones : Option TransTable
  categorias : Option CatTable
  lugares : Option LugTable
deriving DecidableEq, Repr

/-! ## Schema manager: `init_db` -/

/-- `CREATE TABLE IF NOT EXISTS transacciones (...)`: a freshly created table
has the `ubicacion` column and an empty row set. -/
def emptyTransTable : TransTable := ⟨true, 1, []⟩

def emptyCatTable : CatTable := ⟨1, []⟩

def emptyLugTable : LugTable := ⟨1, []⟩

/-- The probe `SELECT ubicacion FROM transacciones LIMIT 1` run by `init_db`:
it returns (at most one) value when the column exists and raises
`sqlite3.OperationalError` when it does not. -/
def probe_ubicacion (t : TransTable) : Except String (List (Option String)) :=
  if t.hasUbicacion then Except.ok ((t.rows.take 1).map (·.ubicacion))
  else Except.error "no such column: ubicacion"

/-- `ALTER TABLE transacciones ADD COLUMN ubicacion TEXT DEFAULT 'General'`:
the column is added in place; every existing row reads the default
`'General'`; ids, dates, amounts and the rest are untouched. -/
def migrateUbicacion (t : TransTable) : TransTable :=
  ⟨true, t.nextId, t.rows.map fun r => { r with ubicacion := some "General" }⟩

def defaultCategories : List (String × String) :=
  [("Ingreso", "Salario"), ("Ingreso", "Inversiones"),
   ("Gasto", "Alimentación"), ("Gasto", "Transporte"), ("Gasto", "Vivienda"),
   ("Gasto", "Salud"), ("Gasto", "Ocio"), ("Gasto", "Servicios")]

def defaultLugares : List String :=
  ["Casa", "Oficina", "Supermercado", "Restaurante", "Online"]

/-- `INSERT OR IGNORE INTO categorias (tipo, nombre) VALUES (?,?)`: a
uniqueness conflict on `(tipo, nombre)` silently no-ops. -/
def catInsertOrIgnore (t : CatTable) (p : String × String) : CatTable :=
  if t.rows.any fun r => r.tipo == p.1 && r.nombre == p.2 then t
  else ⟨t.nextId + 1, t.rows ++ [⟨t.nextId, p.1, p.2⟩]⟩

/-- `INSERT OR IGNORE INTO lugares (nombre) VALUES (?)`. -/
def lugInsertOrIgnore (t : LugTable) (nombre : String) : LugTable :=
  if t.rows.any fun r => r.nombre == nombre then t
  else ⟨t.nextId + 1, t.rows ++ [⟨t.nextId, nombre⟩]⟩

/-- `init_db()`: create the three tables if absent, migrate the `ubicacion`
column if the probe fails, and seed categories / locations when the
respective table is empty. -/
def init_db (db : DB) : DB :=
  let t := db.transacciones.getD emptyTransTable
  let ct := db.categorias.getD emptyCatTable
  let lt := db.lugares.getD emptyLugTable
  let t :=
    match probe_ubicacion t with
    | Except.ok _ => t
    | Except.error _ => migrateUbicacion t
  let ct := if ct.rows.length = 0 then defaultCategories.foldl catInsertOrIgnore ct else ct
  let lt := if lt.rows.length = 0 then defaultLugares.foldl lugInsertOrIgnore lt else lt
  ⟨some t, some ct, some lt⟩

/-! ## Transaction store -/

/-- `add_transaction`: a plain `INSERT` naming the `ubicacion` column; it
fails (raises) when the table or the column is missing, hence the `Option`
result. -/
def add_transaction (db : DB) (fecha tipo categoria : String) (monto : ℚ)
    (nota : String) (ubicacion : String) : Option DB :=
  match db.transacciones with
  | none => none
  | some t =>
    if t.hasUbicacion then
      let t' : TransTable :=
        ⟨true, t.nextId + 1,
          t.rows ++ [⟨t.nextId, fecha, tipo, categoria, monto, nota, some ubicacion⟩]⟩
      some { db with transacciones := some t' }
    else none

/-- `delete_transaction`: `DELETE FROM transacciones WHERE id = ?`. Deleting a
missing id matches no row and is a silent no-op; a missing table raises. -/
def delete_transaction (db : DB) (i : Nat) : Option DB :=
  match db.transacciones with
  | none => none
  | some t =>
    let t' : TransTable := ⟨t.hasUbicacion, t.nextId, t.rows.filter fun r => r.id != i⟩
    some { db with transacciones := some t' }

/-- A row of `get_data`'s result frame: as stored, but with `fecha` parsed
into a date value by `pd.to_datetime`. -/
structure OutRow where
  id : Nat
  fecha : Date
  tipo : String
  categoria : String
  monto : ℚ
  nota : String
  ubicacion : Option String
deriving DecidableEq, Repr

/-- Parse one fetched row (`pd.to_datetime` applied to its `fecha` text). -/
def parseRow (r : TransRow) : Option OutRow :=
  (parseDate r.fecha).map fun d => ⟨r.id, d, r.tipo, r.categoria, r.monto, r.nota, r.ubicacion⟩

/-- Total version of `parseRow` used to describe its output when parsing is
known to succeed. -/
def parseRowTotal (r : TransRow) : OutRow :=
  ⟨r.id, (parseDate r.fecha).getD ⟨0, 0, 0⟩, r.tipo, r.categoria, r.monto, r.nota, r.ubicacion⟩

/-- `ORDER BY fecha DESC` over the row list (`TEXT` collation, embedded as a
stable sort). -/
def fechaDescRel (x y : TransRow) : Prop := strLeb y.fecha x.fecha = true

instance : DecidableRel fechaDescRel := fun _ _ =>
  inferInstanceAs (Decidable (_ = true))

/-- `pd.to_datetime` applied to the whole `fecha` column: all rows parse, or
the conversion raises (`none`). -/
def parseRows : List TransRow → Option (List OutRow)
  | [] => some []
  | r :: rs =>
    match parseRow r, parseRows rs with
    | some o, some os => some (o :: os)
    | _, _ => none

/-- `get_data()`: `SELECT * FROM transacciones ORDER BY fecha DESC`, then
`pd.to_datetime` on the `fecha` column; the bare `except` maps any failure
(missing table, unparseable date) to an empty frame. -/
def get_data (db : DB) : List OutRow :=
  match db.transacciones with
  | none => []
  | some t =>
    match parseRows (t.rows.insertionSort fechaDescRel) with
    | some out => out
    | none => []

/-! ## Reference data store -/

/-- Ascending `TEXT` order on names (`ORDER BY nombre`). -/
def nombreAscRel (x y : String) : Prop := strLeb x y = true

instance : DecidableRel nombreAscRel := fun _ _ =>
  inferInstanceAs (Decidable (_ = true))

/-- `get_categories(tipo)`: `SELECT nombre FROM categorias WHERE tipo = ?
ORDER BY nombre`. -/
def get_categories (t : CatTable) (tipo : String) : List String :=
  (((t.rows.filter fun r => r.tipo == tipo).map fun r => r.nombre).insertionSort nombreAscRel)

/-- `get_locations()`: `SELECT nombre FROM lugares ORDER BY nombre`. -/
def get_locations (t : LugTable) : List String :=
  ((t.rows.map fun r => r.nombre).insertionSort nombreAscRel)

/-- `add_new_category(tipo, nombre)`: capitalize the name, `INSERT`; a
`UNIQUE(tipo, nombre)` conflict is caught (`sqlite3.IntegrityError`) and
reported as `false`; a missing table raises (`none`). -/
def add_new_category (db : DB) (tipo nombre : String) : Option (Bool × DB) :=
  match db.categorias with
  | none => none
  | some t =>
    let nom := pyCapitalize nombre
    if t.rows.any fun r => r.tipo == tipo && r.nombre == nom then some (false, db)
    else
      let t' : CatTable := ⟨t.nextId + 1, t.rows ++ [⟨t.nextId, tipo, nom⟩]⟩
      some (true, { db with categorias := some t' })

/-- `add_new_location(nombre)`: same contract, uniqueness on the name alone. -/
def add_new_location (db : DB) (nombre : String) : Option (Bool × DB) :=
  match db.lugares with
  | none => none
  | some t =>
    let nom := pyCapitalize nombre
    if t.rows.any fun r => r.nombre == nom then some (false, db)
    else
      let t' : LugTable := ⟨t.nextId + 1, t.rows ++ [⟨t.nextId, nom⟩]⟩
      some (true, { db with lugares := some t' })

/-! ## Aggregation / reporting layer (dashboard tab 2) -/

/-- `df[df['tipo']=='Ingreso']['monto'].sum()`. -/
def kpiIngresos (rows : List OutRow) : ℚ :=
  ((rows.filter fun r => r.tipo == "Ingreso").map fun r => r.monto).sum

/-- `df[df['tipo']=='Gasto']['monto'].sum()`. -/
def kpiGastos (rows : List OutRow) : ℚ :=
  ((rows.filter fun r => r.tipo == "Gasto").map fun r => r.monto).sum

/-- The balance metric `ing - gas`. -/
def kpiBalance (rows : List OutRow) : ℚ := kpiIngresos rows - kpiGastos rows

/-- Distinct keys of a `(key, value)` list in ascending key order, as pandas
`groupby(key)` (with its default `sort=True`) enumerates groups. -/
def groupKeys (pairs : List (String × ℚ)) : List String :=
  ((pairs.map fun p => p.1).dedup.insertionSort nombreAscRel)

/-- `groupby(key)[value].sum()`: one `(key, summed value)` row per distinct
key, keys in ascending order. -/
def groupSums (pairs : List (String × ℚ)) : List (String × ℚ) :=
  (groupKeys pairs).map fun k => (k, ((pairs.filter fun p => p.1 == k).map fun p => p.2).sum)

/-- The `(categoria, monto)` pairs of the expense rows, feeding the pie chart
(`px.pie` sums the values of identical names). -/
def categoriaPairs (rows : List OutRow) : List (String × ℚ) :=
  (rows.filter fun r => r.tipo == "Gasto").map fun r => (r.categoria, r.monto)

/-- The per-category expense totals of the pie chart. -/
def categoryBreakdown (rows : List OutRow) : List (String × ℚ) :=
  groupSums (categoriaPairs rows)

/-- The `(ubicacion, monto)` pairs of the expense rows; pandas `groupby`
drops rows whose key is null. -/
def ubicacionPairs (rows : List OutRow) : List (String × ℚ) :=
  rows.filterMap fun r =>
    if r.tipo == "Gasto" then r.ubicacion.map fun u => (u, r.monto) else none

/-- `df[df['tipo']=='Gasto'].groupby('ubicacion')['monto'].sum().reset_index()`. -/
def locationGroups (rows : List OutRow) : List (String × ℚ) :=
  groupSums (ubicacionPairs rows)

/-- Descending order on the summed amount, the sort key of
`sort_values('monto', ascending=False)`. -/
def montoDescRel (x y : String × ℚ) : Prop := y.2 ≤ x.2

instance : DecidableRel montoDescRel := fun _ _ =>
  inferInstanceAs (Decidable (_ ≤ _))

/-- What `sort_values('monto', ascending=False)` guarantees about its output
with its default `kind='quicksort'`: a permutation of the input that is
non-increasing on the key. That kind is documented as not stable, so the
relative order of tied rows is implementation-defined; any permutation
satisfying this relation is a possible result. -/
def IsSortValuesMontoDesc (input output : List (String × ℚ)) : Prop :=
  output.Perm input ∧ List.Pairwise (fun a b : String × ℚ => b.2 ≤ a.2) output

/-- The location bar chart data (`sort_values('monto', ascending=False)
.head(5)` applied to the location groups): `out` is a possible value of
`df_loc` fed to the bar chart. -/
def IsLocationBreakdown (rows : List OutRow) (out : List (String × ℚ)) : Prop :=
  ∃ sorted, IsSortValuesMontoDesc (locationGroups rows) sorted ∧ out = sorted.take 5

/-! ## Order-relation instances for the sorts -/

instance : IsTotal TransRow fechaDescRel :=
  ⟨fun a b => strLeb_total b.fecha a.fecha⟩

instance : IsTrans TransRow fechaDescRel :=
  ⟨fun _ _ _ h₁ h₂ => strLeb_trans h₂ h₁⟩

instance : IsTotal String nombreAscRel :=
  ⟨fun a b => strLeb_total a b⟩

instance : IsTrans String nombreAscRel :=
  ⟨fun _ _ _ h₁ h₂ => strLeb_trans h₁ h₂⟩

instance : IsTotal (String × ℚ) montoDescRel :=
  ⟨fun a b => le_total b.2 a.2⟩

instance : IsTrans (String × ℚ) montoDescRel :=
  ⟨fun _ _ _ h₁ h₂ => le_trans h₂ h₁⟩

/-! ## General lemmas about the embedding's building blocks -/

theorem parseRows_of_all_some {g : TransRow → OutRow} :
    ∀ {l : List TransRow}, (∀ r ∈ l, parseRow r = some (g r)) →
      parseRows l = some (l.map g)
  | [], _ => rfl
  | r :: rs, h => by
    have hr := h r (List.mem_cons_self r rs)
    have ih := parseRows_of_all_some fun x hx => h x (List.mem_cons_of_mem r hx)
    simp only [parseRows, hr, ih, List.map_cons]

theorem parseRows_forall₂ :
    ∀ {l : List TransRow} {l' : List OutRow}, parseRows l = some l' →
      List.Forall₂ (fun r o => parseRow r = some o) l l'
  | [], l', h => by
    simp only [parseRows, Option.some.injEq] at h
    rw [← h]
    exact List.Forall₂.nil
  | r :: rs, l', h => by
    simp only [parseRows] at h
    cases hr : parseRow r with
    | none => rw [hr] at h; exact absurd h (by simp)
    | some o =>
      rw [hr] at h
      cases hrs : parseRows rs with
      | none => rw [hrs] at h; exact absurd h (by simp)
      | some os =>
        rw [hrs] at h
        simp only [Option.some.injEq] at h
        rw [← h]
        exact List.Forall₂.cons hr (parseRows_forall₂ hrs)

theorem parseRow_id {r : TransRow} {o : OutRow} (h : parseRow r = some o) :
    o.id = r.id := by
  unfold parseRow at h
  cases hp : parseDate r.fecha with
  | none => rw [hp] at h; exact absurd h (by simp)
  | some d =>
    rw [hp] at h
    simp only [Option.map_some', Option.some.injEq] at h
    rw [← h]

theorem sum_split_filter (q : (String × ℚ) → Bool) :
    ∀ (pairs : List (String × ℚ)),
      (pairs.map fun p => p.2).sum =
        ((pairs.filter q).map fun p => p.2).sum +
        ((pairs.filter fun p => !(q p)).map fun p => p.2).sum
  | [] => by simp
  | p :: ps => by
    have ih := sum_split_filter q ps
    cases hq : q p with
    | true =>
      simp only [List.filter_cons, hq, Bool.not_true, List.map_cons, List.sum_cons, ih]
      simp only [if_true, show (false = true) = False by simp, if_false,
        List.map_cons, List.sum_cons]
      ring
    | false =>
      simp only [List.filter_cons, hq, Bool.not_false, List.map_cons, List.sum_cons, ih]
      simp only [if_true, show (false = true) = False by simp, if_false,
        List.map_cons, List.sum_cons]
      ring

/-- Summing the values of a `(key, value)` list fiberwise over a key list that
is duplicate-free and covers every key present gives the total sum. -/
theorem sum_fiberwise :
    ∀ (ks : List String) (pairs : List (String × ℚ)), ks.Nodup →
      (∀ p ∈ pairs, p.1 ∈ ks) →
      (ks.map fun k => ((pairs.filter fun p => p.1 == k).map fun p => p.2).sum).sum =
        (pairs.map fun p => p.2).sum
  | [], pairs, _, hcov => by
    have : pairs = [] := by
      cases pairs with
      | nil => rfl
      | cons p ps => exact absurd (hcov p (List.mem_cons_self p ps)) (by simp)
    rw [this]
    rfl
  | k :: ks, pairs, hnd, hcov => by
    have hnd' : ks.Nodup := hnd.of_cons
    have hk : k ∉ ks := by
      rw [List.nodup_cons] at hnd
      exact hnd.1
    have hsplit := sum_split_filter (fun p => p.1 == k) pairs
    have hfilter : ∀ k' ∈ ks,
        (pairs.filter fun p => p.1 == k').map (fun p => p.2) =
        ((pairs.filter fun p => !(p.1 == k)).filter fun p => p.1 == k').map
          (fun p => p.2) := by
      intro k' hk'
      have hne : k' ≠ k := fun he => hk (he ▸ hk')
      congr 1
      rw [List.filter_filter]
      apply List.filter_congr
      intro p _
      by_cases hp : p.1 = k'
      · have h1 : (p.1 == k') = true := beq_iff_eq.mpr hp
        have h2 : (p.1 == k) = false := beq_eq_false_iff_ne.mpr (hp ▸ hne)
        simp [h1, h2]
      · have h1 : (p.1 == k') = false := beq_eq_false_iff_ne.mpr hp
        simp [h1]
    have hcov' : ∀ p ∈ pairs.filter fun p => !(p.1 == k), p.1 ∈ ks := by
      intro p hp
      rw [List.mem_filter] at hp
      have := hcov p hp.1
      rcases List.mem_cons.mp this with he | hm
      · exfalso
        have : (p.1 == k) = true := beq_iff_eq.mpr he
        rw [this] at hp
        simp at hp
      · exact hm
    have ih := sum_fiberwise ks (pairs.filter fun p => !(p.1 == k)) hnd' hcov'
    simp only [List.map_cons, List.sum_cons, hsplit]
    congr 1
    rw [← ih]
    congr 1
    apply List.map_congr_left
    intro k' hk'
    exact congrArg List.sum (hfilter k' hk')

theorem catInsertOrIgnore_length_le (t : CatTable) (p : String × String) :
    t.rows.length ≤ (catInsertOrIgnore t p).rows.length := by
  unfold catInsertOrIgnore
  by_cases h : t.rows.any fun r => r.tipo == p.1 && r.nombre == p.2
  · rw [if_pos h]
  · rw [if_neg h]
    simp

theorem foldl_catInsert_length_le :
    ∀ (l : List (String × String)) (t : CatTable),
      t.rows.length ≤ (l.foldl catInsertOrIgnore t).rows.length
  | [], _ => le_refl _
  | p :: l, t => by
    rw [List.foldl_cons]
    exact le_trans (catInsertOrIgnore_length_le t p) (foldl_catInsert_length_le l _)

theorem lugInsertOrIgnore_length_le (t : LugTable) (nombre : String) :
    t.rows.length ≤ (lugInsertOrIgnore t nombre).rows.length := by
  unfold lugInsertOrIgnore
  by_cases h : t.rows.any fun r => r.nombre == nombre
  · rw [if_pos h]
  · rw [if_neg h]
    simp

theorem foldl_lugInsert_length_le :
    ∀ (l : List String) (t : LugTable),
      t.rows.length ≤ (l.foldl lugInsertOrIgnore t).rows.length
  | [], _ => le_refl _
  | p :: l, t => by
    rw [List.foldl_cons]
    exact le_trans (lugInsertOrIgnore_length_le t p) (foldl_lugInsert_length_le l _)

theorem seeded_cats_nonempty (ct : CatTable) (h : ct.rows = []) :
    (defaultCategories.foldl catInsertOrIgnore ct).rows.length ≠ 0 := by
  have h1 : (catInsertOrIgnore ct ("Ingreso", "Salario")).rows.length = 1 := by
    unfold catInsertOrIgnore
    rw [h]
    simp
  unfold defaultCategories
  rw [List.foldl_cons]
  have h2 := foldl_catInsert_length_le
    [("Ingreso", "Inversiones"),
     ("Gasto", "Alimentación"), ("Gasto", "Transporte"), ("Gasto", "Vivienda"),
     ("Gasto", "Salud"), ("Gasto", "Ocio"), ("Gasto", "Servicios")]
    (catInsertOrIgnore ct ("Ingreso", "Salario"))
  omega

theorem seeded_lugs_nonempty (lt : LugTable) (h : lt.rows = []) :
    (defaultLugares.foldl lugInsertOrIgnore lt).rows.length ≠ 0 := by
  have h1 : (lugInsertOrIgnore lt "Casa").rows.length = 1 := by
    unfold lugInsertOrIgnore
    rw [h]
    simp
  unfold defaultLugares
  rw [List.foldl_cons]
  have h2 := foldl_lugInsert_length_le
    ["Oficina", "Supermercado", "Restaurante", "Online"] (lugInsertOrIgnore lt "Casa")
  omega

/-- What `init_db` always establishes: the three tables exist, the transaction
table has the `ubicacion` column, and the reference tables are nonempty. -/
theorem init_db_spec (db : DB) : ∃ t ct lt,
    init_db db = ⟨some t, some ct, some lt⟩ ∧
    t.hasUbicacion = true ∧ ct.rows.length ≠ 0 ∧ lt.rows.length ≠ 0 := by
  unfold init_db probe_ubicacion
  set t0 := db.transacciones.getD emptyTransTable with ht0
  set ct0 := db.categorias.getD emptyCatTable with hct0
  set lt0 := db.lugares.getD emptyLugTable with hlt0
  refine ⟨_, _, _, rfl, ?_, ?_, ?_⟩
  · by_cases h : t0.hasUbicacion
    · simp [h]
    · simp [h, migrateUbicacion]
  · by_cases h : ct0.rows.length = 0
    · have he : ct0.rows = [] := List.length_eq_zero.mp h
      simp only [h, if_true]
      exact seeded_cats_nonempty ct0 he
    · simp only [h, if_false]
      exact h
  · by_cases h : lt0.rows.length = 0
    · have he : lt0.rows = [] := List.length_eq_zero.mp h
      simp only [h, if_true]
      exact seeded_lugs_nonempty lt0 he
    · simp only [h, if_false]
      exact h

/-- C2: `initialize()` is idempotent: on any store, a second `init_db` after a
first one changes neither the schema nor the contents of any table — in
particular seeding runs only when the category / location table is empty, so
no duplicate seed rows are inserted. -/
theorem C2_init_db_idempotent (db : DB) : init_db (init_db db) = init_db db := by
  obtain ⟨t, ct, lt, heq, hu, hc, hl⟩ := init_db_spec db
  rw [heq]
  unfold init_db probe_ubicacion
  simp only [Option.getD_some, hu, if_true, hc, if_false, hl]

/-- C1: on a store whose transaction table lacks the `ubicacion` column,
`init_db` sees the probe `SELECT ubicacion ...` fail, adds the column in
place (same number of rows, every other field preserved, no rebuild), every
pre-existing row then reads `ubicacion = 'General'`, and newly added rows may
carry any location value. -/
theorem C1_migration_ubicacion (db : DB) (t : TransTable)
    (h : db.transacciones = some t) (hcol : t.hasUbicacion = false) :
    (∃ msg, probe_ubicacion t = Except.error msg) ∧
    ∃ t', (init_db db).transacciones = some t' ∧
      t'.hasUbicacion = true ∧
      t'.nextId = t.nextId ∧
      t'.rows.length = t.rows.length ∧
      List.Forall₂ (fun r r' : TransRow =>
        r'.id = r.id ∧ r'.fecha = r.fecha ∧ r'.tipo = r.tipo ∧
        r'.categoria = r.categoria ∧ r'.monto = r.monto ∧ r'.nota = r.nota ∧
        r'.ubicacion = some "General") t.rows t'.rows ∧
      (∀ fecha tipo cat nota u, ∀ monto : ℚ, ∃ db'' t'',
        add_transaction (init_db db) fecha tipo cat monto nota u = some db'' ∧
        db''.transacciones = some t'' ∧
        t''.rows = t'.rows ++ [⟨t.nextId, fecha, tipo, cat, monto, nota, some u⟩]) := by
  have hprobe : probe_ubicacion t = Except.error "no such column: ubicacion" := by
    unfold probe_ubicacion
    rw [hcol]
    simp
  have htrans : (init_db db).transacciones = some (migrateUbicacion t) := by
    unfold init_db
    rw [h]
    simp only [Option.getD_some, hprobe]
  refine ⟨⟨_, hprobe⟩, migrateUbicacion t, htrans, rfl, rfl, ?_, ?_, ?_⟩
  · exact List.length_map _ _
  · simp only [migrateUbicacion, List.forall₂_map_right_iff, List.forall₂_same]
    intro r _
    exact ⟨trivial, trivial, trivial, trivial, trivial, trivial, trivial⟩
  · intro fecha tipo cat nota u monto
    unfold add_transaction
    rw [htrans]
    simp only [show (migrateUbicacion t).hasUbicacion = true from rfl, if_true]
    exact ⟨_, _, rfl, rfl, rfl⟩

/-- Witness store for the migration claim: an old-schema table with one row. -/
def oldRow1 : TransRow := ⟨1, "2023-05-01", "Gasto", "Ocio", 10, "nota", none⟩

def oldTable : TransTable := ⟨false, 2, [oldRow1]⟩

def oldDB : DB := ⟨some oldTable, none, none⟩

theorem C1_migration_ubicacion_witness :
    oldDB.transacciones = some oldTable ∧ oldTable.hasUbicacion = false ∧
    ((∃ msg, probe_ubicacion oldTable = Except.error msg) ∧
    ∃ t', (init_db oldDB).transacciones = some t' ∧
      t'.hasUbicacion = true ∧
      t'.nextId = oldTable.nextId ∧
      t'.rows.length = oldTable.rows.length ∧
      List.Forall₂ (fun r r' : TransRow =>
        r'.id = r.id ∧ r'.fecha = r.fecha ∧ r'.tipo = r.tipo ∧
        r'.categoria = r.categoria ∧ r'.monto = r.monto ∧ r'.nota = r.nota ∧
        r'.ubicacion = some "General") oldTable.rows t'.rows ∧
      (∀ fecha tipo cat nota u, ∀ monto : ℚ, ∃ db'' t'',
        add_transaction (init_db oldDB) fecha tipo cat monto nota u = some db'' ∧
        db''.transacciones = some t'' ∧
        t''.rows = t'.rows ++ [⟨oldTable.nextId, fecha, tipo, cat, monto, nota, some u⟩])) :=
  ⟨rfl, rfl, C1_migration_ubicacion oldDB oldTable rfl rfl⟩


theorem forall₂_mem_right {α β : Type} {R : α → β → Prop} :
    ∀ {l : List α} {l' : List β}, List.Forall₂ R l l' → ∀ b ∈ l', ∃ a ∈ l, R a b
  | _, _, List.Forall₂.nil, b, hb => absurd hb (by simp)
  | _, _, List.Forall₂.cons h hs, b, hb => by
    rcases List.mem_cons.mp hb with he | hm
    · exact ⟨_, List.mem_cons_self _ _, he ▸ h⟩
    · obtain ⟨a, ha, hR⟩ := forall₂_mem_right hs b hm
      exact ⟨a, List.mem_cons_of_mem _ ha, hR⟩

theorem get_data_some {db : DB} {t : TransTable} (h : db.transacciones = some t) :
    get_data db =
      match parseRows (t.rows.insertionSort fechaDescRel) with
      | some out => out
      | none => [] := by
  unfold get_data
  rw [h]

theorem delete_transaction_some {db : DB} {t : TransTable}
    (h : db.transacciones = some t) (i : Nat) :
    delete_transaction db i =
      some { db with transacciones := some (TransTable.mk t.hasUbicacion t.nextId (t.rows.filter fun r => r.id != i)) } := by
  unfold delete_transaction
  rw [h]

/-- Every row `get_data` returns comes from a stored row that parses to it. -/
theorem mem_get_data {db : DB} {t : TransTable} {o : OutRow}
    (h : db.transacciones = some t) (ho : o ∈ get_data db) :
    ∃ r ∈ t.rows, parseRow r = some o := by
  rw [get_data_some h] at ho
  cases hp : parseRows (t.rows.insertionSort fechaDescRel) with
  | none =>
    rw [hp] at ho
    simp at ho
  | some out =>
    rw [hp] at ho
    obtain ⟨r, hr, hro⟩ := forall₂_mem_right (parseRows_forall₂ hp) o ho
    exact ⟨r, (List.perm_insertionSort fechaDescRel t.rows).mem_iff.mp hr, hro⟩

/-- C8: after `delete_transaction(id)`, `get_data` returns no record with that
id; and deleting an id that matches no stored row is a silent no-op, not an
error. -/
theorem C8_delete_not_in_get_data (db : DB) (t : TransTable) (i : Nat)
    (h : db.transacciones = some t) :
    (∃ db', delete_transaction db i = some db' ∧ ∀ o ∈ get_data db', o.id ≠ i) ∧
    ((∀ r ∈ t.rows, r.id ≠ i) → delete_transaction db i = some db) := by
  constructor
  · refine ⟨_, delete_transaction_some h i, ?_⟩
    intro o ho
    obtain ⟨r, hr, hro⟩ := mem_get_data (t := ⟨t.hasUbicacion, t.nextId,
      t.rows.filter fun r => r.id != i⟩) rfl ho
    have hne : (r.id != i) = true := (List.mem_filter.mp hr).2
    rw [parseRow_id hro]
    exact bne_iff_ne.mp hne
  · intro hnone
    have hfix : (t.rows.filter fun r => r.id != i) = t.rows :=
      List.filter_eq_self.mpr fun r hr => bne_iff_ne.mpr (hnone r hr)
    cases db with
    | mk tr ct lg =>
      have h' : tr = some t := h
      rw [delete_transaction_some h i, hfix, h']

/-- Witness store for C8: one transaction with id 1; delete id 1 (present)
and id 7 (absent). -/
def wTable : TransTable :=
  ⟨true, 2, [⟨1, "2024-01-15", "Gasto", "Ocio", 10, "", some "Casa"⟩]⟩

def wDB : DB := ⟨some wTable, none, none⟩

theorem C8_delete_not_in_get_data_witness :
    wDB.transacciones = some wTable ∧
    (∃ db', delete_transaction wDB 1 = some db' ∧ ∀ o ∈ get_data db', o.id ≠ 1) ∧
    ((∀ r ∈ wTable.rows, r.id ≠ 7) → delete_transaction wDB 7 = some wDB) ∧
    delete_transaction wDB 7 = some wDB :=
  ⟨rfl, (C8_delete_not_in_get_data wDB wTable 1 rfl).1,
    (C8_delete_not_in_get_data wDB wTable 7 rfl).2,
    (C8_delete_not_in_get_data wDB wTable 7 rfl).2 (by decide)⟩

/-- C10 (frame property): `delete_transaction(id)` touches only transaction
rows with that id: the surviving rows are exactly the stored rows with a
different id, in their original order; the schema flag, the id counter and
the category / location tables are unchanged. -/
theorem C10_delete_frame (db : DB) (t : TransTable) (i : Nat)
    (h : db.transacciones = some t) :
    ∃ db' t', delete_transaction db i = some db' ∧
      db'.transacciones = some t' ∧
      (∀ r : TransRow, r ∈ t'.rows ↔ r ∈ t.rows ∧ r.id ≠ i) ∧
      t'.rows.Sublist t.rows ∧
      t'.hasUbicacion = t.hasUbicacion ∧ t'.nextId = t.nextId ∧
      db'.categorias = db.categorias ∧ db'.lugares = db.lugares := by
  refine ⟨_, _, delete_transaction_some h i, rfl, ?_, ?_, rfl, rfl, rfl, rfl⟩
  · intro r
    constructor
    · intro hr
      have hm := List.mem_filter.mp hr
      exact ⟨hm.1, bne_iff_ne.mp hm.2⟩
    · intro hr
      exact List.mem_filter.mpr ⟨hr.1, bne_iff_ne.mpr hr.2⟩
  · exact List.filter_sublist t.rows

theorem C10_delete_frame_witness :
    wDB.transacciones = some wTable ∧
    (∃ db' t', delete_transaction wDB 1 = some db' ∧
      db'.transacciones = some t' ∧
      (∀ r : TransRow, r ∈ t'.rows ↔ r ∈ wTable.rows ∧ r.id ≠ 1) ∧
      t'.rows.Sublist wTable.rows ∧
      t'.hasUbicacion = wTable.hasUbicacion ∧ t'.nextId = wTable.nextId ∧
      db'.categorias = wDB.categorias ∧ db'.lugares = wDB.lugares) :=
  ⟨rfl, C10_delete_frame wDB wTable 1 rfl⟩

theorem cat_any_iff (ct : CatTable) (tipo nom : String) :
    ((ct.rows.any fun r => r.tipo == tipo && r.nombre == nom) = true) ↔
      ∃ r ∈ ct.rows, r.tipo = tipo ∧ r.nombre = nom := by
  simp [List.any_eq_true]

theorem lug_any_iff (lt : LugTable) (nom : String) :
    ((lt.rows.any fun r => r.nombre == nom) = true) ↔
      ∃ r ∈ lt.rows, r.nombre = nom := by
  simp [List.any_eq_true]

/-- C3: `add_new_category(tipo, name)` capitalizes the name and then inserts;
it returns `false` (caught `IntegrityError`, no throw, store unchanged)
exactly when the `(tipo, capitalized name)` pair already exists, and returns
`true` having appended the row otherwise; `add_new_location` satisfies the
same contract with uniqueness on the name alone. -/
theorem C3_add_reference_contract (db : DB) (ct : CatTable) (lt : LugTable)
    (tipo nombre lnombre : String)
    (hc : db.categorias = some ct) (hl : db.lugares = some lt) :
    ((∃ r ∈ ct.rows, r.tipo = tipo ∧ r.nombre = pyCapitalize nombre) →
      add_new_category db tipo nombre = some (false, db)) ∧
    (¬ (∃ r ∈ ct.rows, r.tipo = tipo ∧ r.nombre = pyCapitalize nombre) →
      add_new_category db tipo nombre =
        some (true, { db with categorias := some (CatTable.mk (ct.nextId + 1) (ct.rows ++ [⟨ct.nextId, tipo, pyCapitalize nombre⟩])) })) ∧
    ((∃ r ∈ lt.rows, r.nombre = pyCapitalize lnombre) →
      add_new_location db lnombre = some (false, db)) ∧
    (¬ (∃ r ∈ lt.rows, r.nombre = pyCapitalize lnombre) →
      add_new_location db lnombre =
        some (true, { db with lugares := some (LugTable.mk (lt.nextId + 1) (lt.rows ++ [⟨lt.nextId, pyCapitalize lnombre⟩])) })) := by
  refine ⟨?_, ?_, ?_, ?_⟩
  · intro hex
    simp only [add_new_category, hc]
    rw [if_pos ((cat_any_iff ct tipo (pyCapitalize nombre)).mpr hex)]
  · intro hex
    simp only [add_new_category, hc]
    rw [if_neg fun hh => hex ((cat_any_iff ct tipo (pyCapitalize nombre)).mp hh)]
  · intro hex
    simp only [add_new_location, hl]
    rw [if_pos ((lug_any_iff lt (pyCapitalize lnombre)).mpr hex)]
  · intro hex
    simp only [add_new_location, hl]
    rw [if_neg fun hh => hex ((lug_any_iff lt (pyCapitalize lnombre)).mp hh)]

def ctW : CatTable := ⟨2, [⟨1, "Gasto", "Comida"⟩]⟩

def ltW : LugTable := ⟨2, [⟨1, "Casa"⟩]⟩

def dbW3 : DB := ⟨none, some ctW, some ltW⟩

theorem C3_add_reference_contract_witness :
    dbW3.categorias = some ctW ∧ dbW3.lugares = some ltW ∧
    add_new_category dbW3 "Gasto" "comida" = some (false, dbW3) ∧
    add_new_category dbW3 "Gasto" "ocio" =
      some (true, { dbW3 with categorias := some (CatTable.mk 3 (ctW.rows ++ [⟨2, "Gasto", pyCapitalize "ocio"⟩])) }) ∧
    add_new_location dbW3 "casa" = some (false, dbW3) :=
  ⟨rfl, rfl,
    (C3_add_reference_contract dbW3 ctW ltW "Gasto" "comida" "x" rfl rfl).1 (by decide),
    (C3_add_reference_contract dbW3 ctW ltW "Gasto" "ocio" "x" rfl rfl).2.1 (by decide),
    (C3_add_reference_contract dbW3 ctW ltW "Gasto" "x" "casa" rfl rfl).2.2.1 (by decide)⟩

/-- C9: the normalization is Python's `str.capitalize` — the first character
is uppercased and every following character lowercased; hence any two names
that differ only in letter case (at any position) normalize to the same
stored string, inserting the second of such a pair under the same tipo
returns `false`, and the empty string normalizes to itself and is accepted
by the store. -/
theorem C9_capitalize_normalization :
    (∀ (c : Char) (cs : List Char),
      pyCapitalize ⟨c :: cs⟩ = ⟨c.toUpper :: cs.map Char.toLower⟩) ∧
    pyCapitalize "" = "" ∧
    (∀ s t : String, caseVariant s t → pyCapitalize s = pyCapitalize t) ∧
    (∀ (db db' : DB) (tipo s t : String), caseVariant s t →
      add_new_category db tipo s = some (true, db') →
      add_new_category db' tipo t = some (false, db')) ∧
    (∀ (db : DB) (ct : CatTable) (tipo : String), db.categorias = some ct →
      ¬ (∃ r ∈ ct.rows, r.tipo = tipo ∧ r.nombre = "") →
      add_new_category db tipo "" =
        some (true, { db with categorias := some (CatTable.mk (ct.nextId + 1) (ct.rows ++ [⟨ct.nextId, tipo, ""⟩])) })) := by
  refine ⟨fun c cs => rfl, rfl, fun s t h => pyCapitalize_caseVariant h, ?_, ?_⟩
  · intro db db' tipo s t hvar hadd
    cases hdb : db.categorias with
    | none =>
      simp only [add_new_category, hdb] at hadd
      exact absurd hadd (by simp)
    | some ct0 =>
      simp only [add_new_category, hdb] at hadd
      by_cases hany : (ct0.rows.any fun r => r.tipo == tipo && r.nombre == pyCapitalize s) = true
      · rw [if_pos hany] at hadd
        simp at hadd
      · rw [if_neg hany] at hadd
        simp only [Option.some.injEq, Prod.mk.injEq, true_and] at hadd
        have hct' : db'.categorias =
            some (CatTable.mk (ct0.nextId + 1) (ct0.rows ++ [⟨ct0.nextId, tipo, pyCapitalize s⟩])) := by
          rw [← hadd]
        have hnewmem : (⟨ct0.nextId, tipo, pyCapitalize s⟩ : CatRow) ∈
            ct0.rows ++ [⟨ct0.nextId, tipo, pyCapitalize s⟩] := by
          simp
        have hcap : pyCapitalize t = pyCapitalize s :=
          (pyCapitalize_caseVariant hvar).symm
        simp only [add_new_category, hct']
        rw [if_pos]
        apply List.any_eq_true.mpr
        refine ⟨⟨ct0.nextId, tipo, pyCapitalize s⟩, hnewmem, ?_⟩
        simp [hcap]
  · intro db ct tipo hdb hnone
    simp only [add_new_category, hdb]
    rw [if_neg fun hh => hnone ((cat_any_iff ct tipo (pyCapitalize "")).mp hh)]
    rfl

def dbX : DB := { dbW3 with categorias := some (CatTable.mk 3 (ctW.rows ++ [⟨2, "Gasto", "Mesa"⟩])) }

theorem C9_capitalize_normalization_witness :
    caseVariant "mesa" "MESA" ∧
    add_new_category dbW3 "Gasto" "mesa" = some (true, dbX) ∧
    add_new_category dbX "Gasto" "MESA" = some (false, dbX) ∧
    (¬ ∃ r ∈ ctW.rows, r.tipo = "Gasto" ∧ r.nombre = "") ∧
    add_new_category dbW3 "Gasto" "" =
      some (true, { dbW3 with categorias := some (CatTable.mk 3 (ctW.rows ++ [⟨2, "Gasto", ""⟩])) }) := by
  have hv : caseVariant "mesa" "MESA" :=
    List.Forall₂.cons (by decide) (List.Forall₂.cons (by decide)
      (List.Forall₂.cons (by decide) (List.Forall₂.cons (by decide) List.Forall₂.nil)))
  exact ⟨hv, by decide,
    C9_capitalize_normalization.2.2.2.1 dbW3 dbX "Gasto" "mesa" "MESA" hv (by decide),
    by decide,
    C9_capitalize_normalization.2.2.2.2 dbW3 ctW "Gasto" rfl (by decide)⟩

theorem groupKeys_nodup (pairs : List (String × ℚ)) : (groupKeys pairs).Nodup := by
  unfold groupKeys
  exact (List.perm_insertionSort nombreAscRel _).nodup_iff.mpr (List.nodup_dedup _)

theorem mem_groupKeys {pairs : List (String × ℚ)} {p : String × ℚ} (hp : p ∈ pairs) :
    p.1 ∈ groupKeys pairs := by
  unfold groupKeys
  rw [(List.perm_insertionSort nombreAscRel _).mem_iff, List.mem_dedup]
  exact List.mem_map_of_mem _ hp

/-- The group totals of `groupby(key).sum()` add up to the total of the
grouped column. -/
theorem groupSums_total (pairs : List (String × ℚ)) :
    ((groupSums pairs).map fun g => g.2).sum = (pairs.map fun p => p.2).sum := by
  unfold groupSums
  rw [List.map_map]
  exact sum_fiberwise (groupKeys pairs) pairs (groupKeys_nodup pairs)
    fun p hp => mem_groupKeys hp

/-- C5: on any non-empty filtered transaction set, total income is the sum of
`monto` over `tipo = Ingreso` rows, total expense the sum over `tipo = Gasto`
rows, the balance is income minus expense, and the per-category totals of the
category breakdown add up exactly to the total expense. -/
theorem C5_kpi_category_totals (rows : List OutRow) (_hne : rows ≠ []) :
    kpiIngresos rows = ((rows.filter fun r => r.tipo == "Ingreso").map fun r => r.monto).sum ∧
    kpiGastos rows = ((rows.filter fun r => r.tipo == "Gasto").map fun r => r.monto).sum ∧
    kpiBalance rows = kpiIngresos rows - kpiGastos rows ∧
    ((categoryBreakdown rows).map fun g => g.2).sum = kpiGastos rows := by
  refine ⟨rfl, rfl, rfl, ?_⟩
  unfold categoryBreakdown
  rw [groupSums_total]
  unfold categoriaPairs kpiGastos
  rw [List.map_map]
  rfl

def kRow1 : OutRow := ⟨1, ⟨2024, 1, 15⟩, "Gasto", "Alimentación", 50, "", some "Casa"⟩

def kRow2 : OutRow := ⟨2, ⟨2024, 1, 20⟩, "Ingreso", "Salario", 1000, "", some "Oficina"⟩

def kRow3 : OutRow := ⟨3, ⟨2024, 1, 21⟩, "Gasto", "Transporte", 20, "", some "Casa"⟩

theorem C5_kpi_category_totals_witness :
    [kRow1, kRow2, kRow3] ≠ ([] : List OutRow) ∧
    (kpiIngresos [kRow1, kRow2, kRow3] =
      (([kRow1, kRow2, kRow3].filter fun r => r.tipo == "Ingreso").map fun r => r.monto).sum ∧
    kpiGastos [kRow1, kRow2, kRow3] =
      (([kRow1, kRow2, kRow3].filter fun r => r.tipo == "Gasto").map fun r => r.monto).sum ∧
    kpiBalance [kRow1, kRow2, kRow3] =
      kpiIngresos [kRow1, kRow2, kRow3] - kpiGastos [kRow1, kRow2, kRow3] ∧
    ((categoryBreakdown [kRow1, kRow2, kRow3]).map fun g => g.2).sum =
      kpiGastos [kRow1, kRow2, kRow3]) :=
  ⟨by simp, C5_kpi_category_totals [kRow1, kRow2, kRow3] (by simp)⟩

/-- Two expense rows with equal amounts at different locations: the grouping
produces `Casa` before `Oficina` (key-ascending), and the two groups tie. -/
def c6Rows : List OutRow :=
  [⟨1, ⟨2024, 1, 1⟩, "Gasto", "Ocio", 10, "", some "Casa"⟩,
   ⟨2, ⟨2024, 1, 2⟩, "Gasto", "Ocio", 10, "", some "Oficina"⟩]

/-- A possible result of the unstable descending sort on those groups: the
tied groups in the opposite of the grouping's order. -/
def c6Out : List (String × ℚ) := [("Oficina", 10), ("Casa", 10)]

theorem locationGroups_c6Rows :
    locationGroups c6Rows = [("Casa", (10 : ℚ)), ("Oficina", 10)] := by
  show groupSums (ubicacionPairs c6Rows) = _
  unfold groupSums
  rw [show groupKeys (ubicacionPairs c6Rows) = ["Casa", "Oficina"] from rfl]
  simp only [List.map_cons, List.map_nil]
  rw [show (ubicacionPairs c6Rows).filter (fun p => p.1 == "Casa") =
        [("Casa", (10 : ℚ))] from rfl,
      show (ubicacionPairs c6Rows).filter (fun p => p.1 == "Oficina") =
        [("Oficina", (10 : ℚ))] from rfl]
  norm_num

theorem c6Out_is_breakdown : IsLocationBreakdown c6Rows c6Out := by
  refine ⟨c6Out, ⟨?_, ?_⟩, rfl⟩
  · rw [locationGroups_c6Rows]
    exact List.Perm.swap _ _ _
  · exact List.pairwise_pair.mpr (le_refl _)

/-- C6, counterexample to the tie-order clause: the claim asserts that groups
with equal sums appear in the stable order the grouping produced, but
`sort_values` with its default (unstable) kind only guarantees a sorted
permutation; `c6Out` is such a possible output, and its tied groups are not a
sublist of (do not preserve the order of) the grouping's output. -/
theorem C6_location_breakdown_counterexample :
    IsLocationBreakdown c6Rows c6Out ∧
    ¬ ((c6Out.filter fun g => g.2 == (10 : ℚ)).Sublist
        ((locationGroups c6Rows).filter fun g => g.2 == (10 : ℚ))) := by
  refine ⟨c6Out_is_breakdown, ?_⟩
  rw [locationGroups_c6Rows]
  intro hsub
  have h1 : (c6Out.filter fun g => g.2 == (10 : ℚ)) = c6Out := by
    rw [List.filter_eq_self]
    intro a ha
    rcases List.mem_cons.mp ha with he | ha2
    · rw [he]
      decide
    · rcases List.mem_cons.mp ha2 with he | ha3
      · rw [he]
        decide
      · exact absurd ha3 (by simp)
  have h2 : (([("Casa", (10 : ℚ)), ("Oficina", 10)]).filter fun g => g.2 == (10 : ℚ)) =
      [("Casa", (10 : ℚ)), ("Oficina", 10)] := by
    rw [List.filter_eq_self]
    intro a ha
    rcases List.mem_cons.mp ha with he | ha2
    · rw [he]
      decide
    · rcases List.mem_cons.mp ha2 with he | ha3
      · rw [he]
        decide
      · exact absurd ha3 (by simp)
  rw [h1, h2] at hsub
  have hlen := hsub.eq_of_length (by rfl)
  have hh := congrArg (fun l => l.head?) hlen
  simp [c6Out] at hh

/-- C6, amended: the location breakdown groups the expense rows by location
(dropping null locations), sums the amounts per group, and hands the chart
the first five entries of a descending-sorted permutation of those groups.
Every possible output has at most five groups, is sorted non-increasingly by
summed amount, and contains only groups produced by the grouping; the
relative order of tied groups is implementation-defined (the default sort
kind is not stable), and such an output always exists. -/
theorem C6_location_breakdown_amended (rows : List OutRow) :
    (∃ out, IsLocationBreakdown rows out) ∧
    ∀ out, IsLocationBreakdown rows out →
      out.length ≤ 5 ∧
      List.Pairwise (fun a b : String × ℚ => b.2 ≤ a.2) out ∧
      ∀ g ∈ out, g ∈ locationGroups rows := by
  constructor
  · refine ⟨((locationGroups rows).insertionSort montoDescRel).take 5,
      (locationGroups rows).insertionSort montoDescRel, ⟨?_, ?_⟩, rfl⟩
    · exact List.perm_insertionSort montoDescRel (locationGroups rows)
    · exact List.sorted_insertionSort montoDescRel (locationGroups rows)
  · intro out hout
    obtain ⟨sorted, ⟨hperm, hsort⟩, hout⟩ := hout
    subst hout
    refine ⟨?_, ?_, ?_⟩
    · rw [List.length_take]
      exact min_le_left _ _
    · exact List.Pairwise.sublist (List.take_sublist 5 _) hsort
    · intro g hg
      exact hperm.mem_iff.mp ((List.take_sublist 5 sorted).subset hg)

theorem C6_location_breakdown_amended_witness :
    IsLocationBreakdown c6Rows c6Out ∧
    c6Out.length ≤ 5 ∧
    List.Pairwise (fun a b : String × ℚ => b.2 ≤ a.2) c6Out ∧
    ∀ g ∈ c6Out, g ∈ locationGroups c6Rows :=
  ⟨c6Out_is_breakdown,
    (C6_location_breakdown_amended c6Rows).2 c6Out c6Out_is_breakdown⟩

/-- The dates of these rows are canonically serialized valid dates — true of
every row the app itself writes (`st.date_input` values bound by `sqlite3`). -/
def CanonicalRows (l : List TransRow) : Prop :=
  ∀ r ∈ l, ∃ d : Date, ValidDate d ∧ r.fecha = isoOfDate d

theorem parseRow_of_canonical {r : TransRow} {d : Date} (hv : ValidDate d)
    (hf : r.fecha = isoOfDate d) :
    parseDate r.fecha = some d ∧ parseRow r = some (parseRowTotal r) ∧
      (parseRowTotal r).fecha = d := by
  have hp : parseDate r.fecha = some d := by
    rw [hf]
    exact parseDate_isoOfDate hv
  refine ⟨hp, ?_, ?_⟩
  · unfold parseRow parseRowTotal
    rw [hp]
    simp
  · unfold parseRowTotal
    rw [hp]
    rfl

/-- C7: `get_data` returns the full stored transaction set with every `fecha`
parsed into a date value, ordered by date descending; and whenever the table
is missing or empty it returns an empty result instead of raising. -/
theorem C7_get_data_contract :
    (∀ db : DB, db.transacciones = none → get_data db = []) ∧
    (∀ (db : DB) (t : TransTable), db.transacciones = some t → t.rows = [] →
      get_data db = []) ∧
    (∀ (db : DB) (t : TransTable), db.transacciones = some t →
      CanonicalRows t.rows →
      (get_data db).Perm (t.rows.map parseRowTotal) ∧
      (∀ r ∈ t.rows, ∃ d : Date, parseDate r.fecha = some d ∧
        parseRow r = some (parseRowTotal r) ∧ (parseRowTotal r).fecha = d) ∧
      List.Pairwise (fun a b : OutRow => dateLeProp b.fecha a.fecha) (get_data db)) := by
  refine ⟨?_, ?_, ?_⟩
  · intro db h
    unfold get_data
    rw [h]
  · intro db t h ht
    rw [get_data_some h, ht]
    rfl
  · intro db t h hcanon
    have hall : ∀ r ∈ t.rows.insertionSort fechaDescRel,
        parseRow r = some (parseRowTotal r) := by
      intro r hr
      obtain ⟨d, hv, hf⟩ :=
        hcanon r ((List.perm_insertionSort fechaDescRel t.rows).mem_iff.mp hr)
      exact (parseRow_of_canonical hv hf).2.1
    have hp : parseRows (t.rows.insertionSort fechaDescRel) =
        some ((t.rows.insertionSort fechaDescRel).map parseRowTotal) :=
      parseRows_of_all_some hall
    have hgd : get_data db = (t.rows.insertionSort fechaDescRel).map parseRowTotal := by
      rw [get_data_some h, hp]
    refine ⟨?_, ?_, ?_⟩
    · rw [hgd]
      exact (List.perm_insertionSort fechaDescRel t.rows).map parseRowTotal
    · intro r hr
      obtain ⟨d, hv, hf⟩ := hcanon r hr
      exact ⟨d, parseRow_of_canonical hv hf⟩
    · rw [hgd]
      apply List.pairwise_map.mpr
      have hsorted : List.Pairwise fechaDescRel (t.rows.insertionSort fechaDescRel) :=
        List.sorted_insertionSort fechaDescRel t.rows
      apply List.Pairwise.imp_of_mem ?_ hsorted
      intro a b ha hb hr
      have hma : a ∈ t.rows := (List.perm_insertionSort fechaDescRel t.rows).mem_iff.mp ha
      have hmb : b ∈ t.rows := (List.perm_insertionSort fechaDescRel t.rows).mem_iff.mp hb
      obtain ⟨da, hva, hfa⟩ := hcanon a hma
      obtain ⟨db', hvb, hfb⟩ := hcanon b hmb
      have hda : (parseRowTotal a).fecha = da := (parseRow_of_canonical hva hfa).2.2
      have hdb : (parseRowTotal b).fecha = db' := (parseRow_of_canonical hvb hfb).2.2
      rw [hda, hdb]
      by_contra hnle
      have hlt : dateLtProp da db' := dateLt_of_not_le hnle
      have hslt : strLtb (isoOfDate da) (isoOfDate db') = true :=
        isoOfDate_strLt hva hvb hlt
      unfold fechaDescRel at hr
      rw [hfa, hfb] at hr
      unfold strLeb at hr
      rw [hslt] at hr
      simp at hr

def c7Row1 : TransRow := ⟨1, "2024-01-15", "Gasto", "Ocio", 10, "", some "Casa"⟩

def c7Row2 : TransRow := ⟨2, "2024-02-01", "Ingreso", "Salario", 100, "", some "Oficina"⟩

def c7Table : TransTable := ⟨true, 3, [c7Row1, c7Row2]⟩

def c7DB : DB := ⟨some c7Table, none, none⟩

def c7EmptyDB : DB := ⟨some (TransTable.mk true 1 []), none, none⟩

def c7NoneDB : DB := ⟨none, none, none⟩

theorem C7_get_data_contract_witness :
    c7NoneDB.transacciones = none ∧ get_data c7NoneDB = [] ∧
    get_data c7EmptyDB = [] ∧
    CanonicalRows c7Table.rows ∧
    ((get_data c7DB).Perm (c7Table.rows.map parseRowTotal) ∧
      (∀ r ∈ c7Table.rows, ∃ d : Date, parseDate r.fecha = some d ∧
        parseRow r = some (parseRowTotal r) ∧ (parseRowTotal r).fecha = d) ∧
      List.Pairwise (fun a b : OutRow => dateLeProp b.fecha a.fecha) (get_data c7DB)) := by
  have hcanon : CanonicalRows c7Table.rows := by
    intro r hr
    rcases List.mem_cons.mp hr with he | hr2
    · exact ⟨⟨2024, 1, 15⟩, by unfold ValidDate; decide, by rw [he]; decide⟩
    · rcases List.mem_cons.mp hr2 with he | hr3
      · exact ⟨⟨2024, 2, 1⟩, by unfold ValidDate; decide, by rw [he]; decide⟩
      · exact absurd hr3 (by simp)
  exact ⟨rfl, C7_get_data_contract.1 c7NoneDB rfl,
    C7_get_data_contract.2.1 c7EmptyDB (TransTable.mk true 1 []) rfl rfl,
    hcanon,
    C7_get_data_contract.2.2 c7DB c7Table rfl hcanon⟩

/-! ## C4: no case-variant duplicates among category names -/

/-- The store as it exists after process start on a fresh file:
`init_db()` on an empty database. -/
def freshDB : DB := init_db ⟨none, none, none⟩

/-- A sequence of `add_new_category(tipo, name)` calls applied in order. -/
def applyCatOps (db : DB) (ops : List (String × String)) : DB :=
  ops.foldl (fun d p =>
    match add_new_category d p.1 p.2 with
    | some (_, d') => d'
    | none => d) db

/-- Two names differ only in the case of their first letter: equal tails and
case-equivalent first characters (equal names are included as the degenerate
variant, so ruling this out also rules out exact duplicates). -/
def firstCaseVariant (s t : String) : Prop :=
  match s.data, t.data with
  | c :: cs, d :: ds => c.toLower = d.toLower ∧ cs = ds
  | _, _ => False

/-- The first character (if any) is fixed by uppercasing — true of every
stored category name: the seeds are capitalized literals and every user-added
name went through `capitalize()`. -/
def headUpperFixedB (s : String) : Bool :=
  match s.data with
  | [] => true
  | c :: _ => c.toUpper == c

/-- The inductive invariant on the `categorias` table. -/
def CatInv (ct : CatTable) : Prop :=
  (∀ r ∈ ct.rows, headUpperFixedB r.nombre = true) ∧
  List.Pairwise (fun r r' : CatRow => ¬ (r.tipo = r'.tipo ∧ r.nombre = r'.nombre)) ct.rows

theorem headUpperFixedB_pyCapitalize (s : String) :
    headUpperFixedB (pyCapitalize s) = true := by
  unfold pyCapitalize
  cases hs : s.data with
  | nil => rfl
  | cons c cs => exact beq_iff_eq.mpr (char_toUpper_idem c)

theorem firstCaseVariant_symm {s t : String} (h : firstCaseVariant s t) :
    firstCaseVariant t s := by
  unfold firstCaseVariant at h ⊢
  obtain ⟨sd⟩ := s
  obtain ⟨td⟩ := t
  cases sd with
  | nil => cases td <;> exact absurd h (by simp)
  | cons c cs =>
    cases td with
    | nil => exact absurd h (by simp)
    | cons d ds => exact ⟨h.1.symm, h.2.symm⟩

theorem no_variant_of_fixed {s t : String}
    (hs : headUpperFixedB s = true) (ht : headUpperFixedB t = true)
    (hne : s ≠ t) : ¬ firstCaseVariant s t := by
  intro hv
  unfold firstCaseVariant at hv
  unfold headUpperFixedB at hs ht
  obtain ⟨sd⟩ := s
  obtain ⟨td⟩ := t
  cases sd with
  | nil => cases td <;> exact absurd hv (by simp)
  | cons c cs =>
    cases td with
    | nil => exact absurd hv (by simp)
    | cons d ds =>
      obtain ⟨hlow, htail⟩ := hv
      have hcu : c.toUpper = c := beq_iff_eq.mp hs
      have hdu : d.toUpper = d := beq_iff_eq.mp ht
      have hu := char_toUpper_toLower_eq hlow
      rw [hcu, hdu] at hu
      apply hne
      rw [hu, htail]

/-- One `add_new_category` call preserves the invariant (and the table's
existence). -/
theorem catInv_step {db : DB} {ct : CatTable}
    (hdb : db.categorias = some ct) (hinv : CatInv ct) (tipo nombre : String) :
    ∃ ct', (match add_new_category db tipo nombre with
            | some (_, d') => d'
            | none => db).categorias = some ct' ∧ CatInv ct' := by
  simp only [add_new_category, hdb]
  by_cases hany : (ct.rows.any fun r => r.tipo == tipo && r.nombre == pyCapitalize nombre) = true
  · rw [if_pos hany]
    exact ⟨ct, hdb, hinv⟩
  · rw [if_neg hany]
    refine ⟨_, rfl, ?_, ?_⟩
    · intro r hr
      rcases List.mem_append.mp hr with hm | hm
      · exact hinv.1 r hm
      · have : r = ⟨ct.nextId, tipo, pyCapitalize nombre⟩ := by
          simpa using hm
        rw [this]
        exact headUpperFixedB_pyCapitalize nombre
    · rw [List.pairwise_append]
      refine ⟨hinv.2, List.pairwise_singleton _ _, ?_⟩
      intro r hr r' hr'
      have hr'' : r' = ⟨ct.nextId, tipo, pyCapitalize nombre⟩ := by
        simpa using hr'
      rw [hr'']
      intro ⟨he1, he2⟩
      apply hany
      apply List.any_eq_true.mpr
      exact ⟨r, hr, by simp [he1, he2]⟩

theorem catInv_applyCatOps :
    ∀ (ops : List (String × String)) {db : DB} {ct : CatTable},
      db.categorias = some ct → CatInv ct →
      ∃ ct', (applyCatOps db ops).categorias = some ct' ∧ CatInv ct'
  | [], db, ct, hdb, hinv => ⟨ct, hdb, hinv⟩
  | p :: ops, db, ct, hdb, hinv => by
    obtain ⟨ct', hdb', hinv'⟩ := catInv_step hdb hinv p.1 p.2
    unfold applyCatOps
    rw [List.foldl_cons]
    exact catInv_applyCatOps ops hdb' hinv'

/-- The seeded fresh store satisfies the invariant. -/
def freshCats : CatTable :=
  ⟨9, [⟨1, "Ingreso", "Salario"⟩, ⟨2, "Ingreso", "Inversiones"⟩,
       ⟨3, "Gasto", "Alimentación"⟩, ⟨4, "Gasto", "Transporte"⟩,
       ⟨5, "Gasto", "Vivienda"⟩, ⟨6, "Gasto", "Salud"⟩,
       ⟨7, "Gasto", "Ocio"⟩, ⟨8, "Gasto", "Servicios"⟩]⟩

theorem freshDB_categorias : freshDB.categorias = some freshCats := by decide

theorem freshCats_inv : CatInv freshCats := by
  constructor
  · decide
  · decide

/-- The invariant bounds what `get_categories` can return. -/
theorem get_categories_no_variant {ct : CatTable} (hinv : CatInv ct) (tipo : String) :
    List.Pairwise (fun a b => ¬ firstCaseVariant a b) (get_categories ct tipo) := by
  unfold get_categories
  rw [(List.perm_insertionSort nombreAscRel _).pairwise_iff
    fun h hv => h (firstCaseVariant_symm hv)]
  apply List.pairwise_map.mpr
  have hfil : List.Pairwise (fun r r' : CatRow => ¬ (r.tipo = r'.tipo ∧ r.nombre = r'.nombre))
      (ct.rows.filter fun r => r.tipo == tipo) :=
    List.Pairwise.sublist (List.filter_sublist _) hinv.2
  apply List.Pairwise.imp_of_mem ?_ hfil
  intro r r' hr hr' hP
  have htr : r.tipo = tipo := beq_iff_eq.mp (List.mem_filter.mp hr).2
  have htr' : r'.tipo = tipo := beq_iff_eq.mp (List.mem_filter.mp hr').2
  have hne : r.nombre ≠ r'.nombre := fun he => hP ⟨htr.trans htr'.symm, he⟩
  exact no_variant_of_fixed
    (hinv.1 r (List.mem_filter.mp hr).1)
    (hinv.1 r' (List.mem_filter.mp hr').1) hne

def ctA : CatTable := ⟨10, freshCats.rows ++ [⟨9, "Gasto", "Comida"⟩]⟩

def dbA : DB := { freshDB with categorias := some ctA }

/-- C4: starting from a freshly initialized store, after any sequence of
`add_new_category` calls the category list of any tipo never contains two
names differing only in the case of their first letter (nor exact
duplicates); in particular adding `"comida"` and then `"Comida"` under
`"Gasto"` fails the second time and leaves exactly one `"Comida"`. -/
theorem C4_case_insensitive_first_letter :
    (∀ (ops : List (String × String)) (tipo : String),
      ∃ ct, (applyCatOps freshDB ops).categorias = some ct ∧
        List.Pairwise (fun a b => ¬ firstCaseVariant a b) (get_categories ct tipo)) ∧
    (add_new_category freshDB "Gasto" "comida" = some (true, dbA) ∧
     add_new_category dbA "Gasto" "Comida" = some (false, dbA) ∧
     dbA.categorias = some ctA ∧
     (get_categories ctA "Gasto").count "Comida" = 1) := by
  constructor
  · intro ops tipo
    obtain ⟨ct, hdb, hinv⟩ := catInv_applyCatOps ops freshDB_categorias freshCats_inv
    exact ⟨ct, hdb, get_categories_no_variant hinv tipo⟩
  · exact ⟨by decide, by decide, rfl, by decide⟩
